import Mathlib

/-!
Verification of the provider-normalisation and orchestration core of the
ai-remote-control repository. The TypeScript sources under `src/server/src`
(providers, chat service, task executor, tool registry) are shallowly
embedded as executable Lean definitions, and the behavioural claims of the
specification are settled against them.

Conventions of the embedding:
- JavaScript objects used as tool arguments are modelled by the inductive
  `Json` type; `JSON.parse` is modelled by the executable `jsonParse`
  (objects, arrays, strings with basic escapes, integers, booleans, null),
  and `JSON.stringify` by `Json.stringify`.
- Async generators are modelled as pure functions from the list of parsed
  wire events (the `data:` payloads after transport framing) to the list of
  emitted `AIStreamChunk`s.
- `Date.now()`-based identifiers are modelled by deterministic supplies;
  the claims under verification never depend on the identifier text.
-/

namespace AIRC

/-- A JSON value, as produced by `JSON.parse` on tool-call argument text.
Numbers are modelled as integers, which covers every argument payload the
claims quantify over. -/
inductive Json where
  | null : Json
  | bool : Bool → Json
  | num : Int → Json
  | str : String → Json
  | arr : List Json → Json
  | obj : List (String × Json) → Json

mutual

/-- Decidable equality on JSON values. -/
def Json.decEq : (a b : Json) → Decidable (a = b)
  | .null, .null => isTrue rfl
  | .bool x, .bool y =>
    match instDecidableEqBool x y with
    | isTrue h => isTrue (by rw [h])
    | isFalse h => isFalse (fun hh => h (Json.bool.inj hh))
  | .num x, .num y =>
    match Int.instDecidableEq x y with
    | isTrue h => isTrue (by rw [h])
    | isFalse h => isFalse (fun hh => h (Json.num.inj hh))
  | .str x, .str y =>
    match String.decEq x y with
    | isTrue h => isTrue (by rw [h])
    | isFalse h => isFalse (fun hh => h (Json.str.inj hh))
  | .arr xs, .arr ys =>
    match Json.decEqList xs ys with
    | isTrue h => isTrue (by rw [h])
    | isFalse h => isFalse (fun hh => h (Json.arr.inj hh))
  | .obj xs, .obj ys =>
    match Json.decEqObj xs ys with
    | isTrue h => isTrue (by rw [h])
    | isFalse h => isFalse (fun hh => h (Json.obj.inj hh))
  | .null, .bool _ | .null, .num _ | .null, .str _ | .null, .arr _
  | .null, .obj _ | .bool _, .null | .bool _, .num _ | .bool _, .str _
  | .bool _, .arr _ | .bool _, .obj _ | .num _, .null | .num _, .bool _
  | .num _, .str _ | .num _, .arr _ | .num _, .obj _ | .str _, .null
  | .str _, .bool _ | .str _, .num _ | .str _, .arr _ | .str _, .obj _
  | .arr _, .null | .arr _, .bool _ | .arr _, .num _ | .arr _, .str _
  | .arr _, .obj _ | .obj _, .null | .obj _, .bool _ | .obj _, .num _
  | .obj _, .str _ | .obj _, .arr _ => isFalse (fun h => Json.noConfusion h)

/-- Decidable equality on lists of JSON values. -/
def Json.decEqList : (a b : List Json) → Decidable (a = b)
  | [], [] => isTrue rfl
  | [], _ :: _ => isFalse (fun h => List.noConfusion h)
  | _ :: _, [] => isFalse (fun h => List.noConfusion h)
  | x :: xs, y :: ys =>
    match Json.decEq x y with
    | isFalse h => isFalse (fun hh => h (List.cons.inj hh).1)
    | isTrue h1 =>
      match Json.decEqList xs ys with
      | isTrue h2 => isTrue (by rw [h1, h2])
      | isFalse h2 => isFalse (fun hh => h2 (List.cons.inj hh).2)

/-- Decidable equality on JSON object member lists. -/
def Json.decEqObj : (a b : List (String × Json)) → Decidable (a = b)
  | [], [] => isTrue rfl
  | [], _ :: _ => isFalse (fun h => List.noConfusion h)
  | _ :: _, [] => isFalse (fun h => List.noConfusion h)
  | (k1, v1) :: xs, (k2, v2) :: ys =>
    match String.decEq k1 k2 with
    | isFalse h => isFalse (fun hh => h (congrArg Prod.fst (List.cons.inj hh).1))
    | isTrue hk =>
      match Json.decEq v1 v2 with
      | isFalse h => isFalse (fun hh => h (congrArg Prod.snd (List.cons.inj hh).1))
      | isTrue hv =>
        match Json.decEqObj xs ys with
        | isTrue h2 => isTrue (by rw [hk, hv, h2])
        | isFalse h2 => isFalse (fun hh => h2 (List.cons.inj hh).2)

end

instance : DecidableEq Json := Json.decEq

/-! ### Character-level helpers shared by the JSON parser and the
MiniMax XML tool-call scanner. -/

/-- Whitespace test matching the JavaScript regex class `\s` on the
characters that occur in wire payloads. -/
def isWsChar (c : Char) : Bool :=
  c = ' ' || c = '\n' || c = '\t' || c = '\r'

/-- Drops leading whitespace, the `\s*` of the source regexes. -/
def dropWs : List Char → List Char
  | [] => []
  | c :: cs => if isWsChar c then dropWs cs else c :: cs

/-- Matches a literal character sequence at the head of the input and
returns the remainder, or `none` when the literal is absent. -/
def stripLit : List Char → List Char → Option (List Char)
  | [], cs => some cs
  | _ :: _, [] => none
  | p :: ps, c :: cs => if c = p then stripLit ps cs else none

/-- Lazy search for the first occurrence of a literal: returns the text
before the occurrence and the remainder after it. This models the
non-greedy `(.*?)lit` idiom of the source regexes. -/
def splitAtLit (lit : List Char) : List Char → Option (List Char × List Char)
  | [] =>
    match stripLit lit [] with
    | some r => some ([], r)
    | none => none
  | c :: cs =>
    match stripLit lit (c :: cs) with
    | some rest => some ([], rest)
    | none =>
      match splitAtLit lit cs with
      | some (pre, rest) => some (c :: pre, rest)
      | none => none

/-! ### A model of `JSON.parse` -/

/-- Parses one JSON string body after the opening quote, handling the
basic escapes; returns the decoded text and the remainder after the
closing quote. -/
def parseStringBody : Nat → List Char → Option (String × List Char)
  | 0, _ => none
  | _ + 1, [] => none
  | fuel + 1, c :: cs =>
    if c = '\x22' then some ("", cs)
    else if c = '\x5c' then
      match cs with
      | [] => none
      | e :: cs' =>
        let dec : Option Char :=
          if e = '\x22' then some '\x22'
          else if e = '\x5c' then some '\x5c'
          else if e = '/' then some '/'
          else if e = 'n' then some '\n'
          else if e = 't' then some '\t'
          else if e = 'r' then some '\r'
          else none
        match dec with
        | none => none
        | some d =>
          match parseStringBody fuel cs' with
          | some (s, rest) => some (String.mk (d :: s.data), rest)
          | none => none
    else
      match parseStringBody fuel cs with
      | some (s, rest) => some (String.mk (c :: s.data), rest)
      | none => none

/-- Parses a run of decimal digits. -/
def parseDigits : List Char → (List Char × List Char)
  | [] => ([], [])
  | c :: cs =>
    if c.isDigit then
      let (ds, rest) := parseDigits cs
      (c :: ds, rest)
    else ([], c :: cs)

/-- Converts a digit run to a natural number. -/
def digitsToNat (ds : List Char) : Nat :=
  ds.foldl (fun acc c => acc * 10 + (c.toNat - '0'.toNat)) 0

mutual

/-- Parses one JSON value; returns the value and the unconsumed remainder. -/
def parseValue : Nat → List Char → Option (Json × List Char)
  | 0, _ => none
  | _ + 1, [] => none
  | fuel + 1, c :: cs =>
    if c = '\x22' then
      match parseStringBody (cs.length + 1) cs with
      | some (s, rest) => some (.str s, rest)
      | none => none
    else if c = '\x7b' then parseObjBody fuel (dropWs cs) true
    else if c = '[' then parseArrBody fuel (dropWs cs) true
    else if c = 't' then
      match stripLit ['r', 'u', 'e'] cs with
      | some rest => some (.bool true, rest)
      | none => none
    else if c = 'f' then
      match stripLit ['a', 'l', 's', 'e'] cs with
      | some rest => some (.bool false, rest)
      | none => none
    else if c = 'n' then
      match stripLit ['u', 'l', 'l'] cs with
      | some rest => some (.null, rest)
      | none => none
    else if c = '-' then
      match parseDigits cs with
      | ([], _) => none
      | (ds, rest) => some (.num (-(digitsToNat ds : Int)), rest)
    else if c.isDigit then
      match parseDigits (c :: cs) with
      | ([], _) => none
      | (ds, rest) => some (.num (digitsToNat ds : Int), rest)
    else none

/-- Parses the members of an object after the opening brace; `first` is
true before any member has been consumed. -/
def parseObjBody : Nat → List Char → Bool → Option (Json × List Char)
  | 0, _, _ => none
  | _ + 1, [], _ => none
  | fuel + 1, c :: cs, first =>
    if c = '\x7d' then some (.obj [], cs)
    else
      let start :=
        if first then some (c :: cs)
        else if c = ',' then some (dropWs cs) else none
      match start with
      | none => none
      | some cs1 =>
        match cs1 with
        | k :: cs2 =>
          if k = '\x22' then
            match parseStringBody (cs2.length + 1) cs2 with
            | none => none
            | some (key, cs3) =>
              match dropWs cs3 with
              | ':' :: cs4 =>
                match parseValue fuel (dropWs cs4) with
                | none => none
                | some (v, cs5) =>
                  match parseObjBody fuel (dropWs cs5) false with
                  | some (.obj kvs, rest) => some (.obj ((key, v) :: kvs), rest)
                  | _ => none
              | _ => none
          else none
        | [] => none

/-- Parses the elements of an array after the opening bracket. -/
def parseArrBody : Nat → List Char → Bool → Option (Json × List Char)
  | 0, _, _ => none
  | _ + 1, [], _ => none
  | fuel + 1, c :: cs, first =>
    if c = ']' then some (.arr [], cs)
    else
      let start :=
        if first then some (c :: cs)
        else if c = ',' then some (dropWs cs) else none
      match start with
      | none => none
      | some cs1 =>
        match parseValue fuel (dropWs cs1) with
        | none => none
        | some (v, cs2) =>
          match parseArrBody fuel (dropWs cs2) false with
          | some (.arr vs, rest) => some (.arr (v :: vs), rest)
          | _ => none

end

/-- Model of `JSON.parse`: parses an entire string as one JSON value,
rejecting trailing garbage; `none` models the thrown `SyntaxError`. -/
def jsonParse (s : String) : Option Json :=
  match parseValue (s.length + 1) (dropWs s.data) with
  | some (v, rest) => if dropWs rest = [] then some v else none
  | none => none

/-! ### A model of `JSON.stringify` -/

/-- Escapes one character of a JSON string literal. -/
def escapeChar (c : Char) : String :=
  if c = '\x22' then String.mk ['\x5c', '\x22']
  else if c = '\x5c' then String.mk ['\x5c', '\x5c']
  else String.singleton c

/-- Renders a string as a JSON string literal. -/
def quoteStr (s : String) : String :=
  "\x22" ++ String.join (s.data.map escapeChar) ++ "\x22"

mutual

/-- Model of `JSON.stringify` on `Json` values. -/
def Json.stringify : Json → String
  | .null => "null"
  | .bool true => "true"
  | .bool false => "false"
  | .num n => toString n
  | .str s => quoteStr s
  | .arr xs => "[" ++ stringifyArr xs ++ "]"
  | .obj kvs => "\x7b" ++ stringifyObj kvs ++ "\x7d"

/-- Comma-separated rendering of array elements. -/
def stringifyArr : List Json → String
  | [] => ""
  | [x] => Json.stringify x
  | x :: y :: rest => Json.stringify x ++ "," ++ stringifyArr (y :: rest)

/-- Comma-separated rendering of object members. -/
def stringifyObj : List (String × Json) → String
  | [] => ""
  | [(k, v)] => quoteStr k ++ ":" ++ Json.stringify v
  | (k, v) :: p :: rest =>
    quoteStr k ++ ":" ++ Json.stringify v ++ "," ++ stringifyObj (p :: rest)

end

/-! ### Canonical stream types (`src/server/src/types/index.ts`) -/

/-- A finalized tool call: `ToolCall` of the shared type definitions. -/
structure ToolCall where
  id : String
  name : String
  arguments : Json
deriving DecidableEq

/-- A canonical stream chunk: `AIStreamChunk` of the shared type
definitions. -/
structure AIStreamChunk where
  content : Option String := none
  toolCall : Option ToolCall := none
  isComplete : Bool
deriving DecidableEq

/-- The bare final marker chunk. -/
def finalChunk : AIStreamChunk := { isComplete := true }

/-! ### The MiniMax inline XML tool-call extraction
(`MiniMaxProvider.stream`, message-stop handler)

The source runs the regex
`<minimax:tool_call>\s*<invoke name="([^"]+)">\s*(?:<parameters>(.*?)</parameters>)?\s*</invoke>\s*</minimax:tool_call>`
over the accumulated turn text, and for each match parses the parameter
XML with `<(\w+)>(.*?)</\1>`, assigning each captured pair into a plain
object. The scanners below implement exactly that leftmost, non-greedy
matching discipline. -/

/-- Word-character test matching the regex class `\w`. -/
def isWordChar (c : Char) : Bool :=
  c.isAlpha || c.isDigit || c = '_'

/-- JavaScript object assignment `params[k] = v`: a later assignment to an
existing key overwrites the value in place; a new key is appended. -/
def objAssign (m : List (String × String)) (k v : String) : List (String × String) :=
  match m with
  | [] => [(k, v)]
  | (k0, v0) :: rest =>
    if k0 = k then (k0, v) :: rest else (k0, v0) :: objAssign rest k v

/-- Scans the parameter XML for `<tag>value</tag>` pairs, the inner
`matchAll` of the source. -/
def scanParams : Nat → List Char → List (String × String)
  | 0, _ => []
  | _ + 1, [] => []
  | fuel + 1, c :: cs =>
    if c = '<' then
      let w := cs.takeWhile isWordChar
      let rest := cs.dropWhile isWordChar
      match w, rest with
      | _ :: _, '>' :: rest1 =>
        match splitAtLit ('<' :: '/' :: w ++ ['>']) rest1 with
        | some (inner, rest2) =>
          (String.mk w, String.mk inner) :: scanParams fuel rest2
        | none => scanParams fuel cs
      | _, _ => scanParams fuel cs
    else scanParams fuel cs

/-- Parses the captured parameter XML into the argument object, including
the duplicate-key overwrite behaviour of JavaScript object assignment. -/
def paramsToJson (inner : List Char) : Json :=
  let pairs := (scanParams (inner.length + 1) inner).foldl
    (fun m kv => objAssign m kv.1 kv.2) []
  .obj (pairs.map (fun kv => (kv.1, Json.str kv.2)))

/-- The literal `<minimax:tool_call>`. -/
def mmOpenTag : List Char := "<minimax:tool_call>".data

/-- The literal `</minimax:tool_call>`. -/
def mmCloseTag : List Char := "</minimax:tool_call>".data

/-- Attempts to match the body of one inline invocation right after an
opening `<minimax:tool_call>` tag; on success returns the tool name, the
parsed argument object and the remainder after the closing tag. -/
def parseInvoke (cs : List Char) : Option (String × Json × List Char) :=
  match stripLit "<invoke name=\x22".data (dropWs cs) with
  | none => none
  | some r1 =>
    let nm := r1.takeWhile (fun c => c ≠ '\x22')
    match nm, r1.dropWhile (fun c => c ≠ '\x22') with
    | _ :: _, '\x22' :: '>' :: r3 =>
      let r4 := dropWs r3
      match stripLit "<parameters>".data r4 with
      | some r5 =>
        match splitAtLit "</parameters>".data r5 with
        | none => none
        | some (inner, r6) =>
          match stripLit "</invoke>".data (dropWs r6) with
          | none => none
          | some r8 =>
            match stripLit mmCloseTag (dropWs r8) with
            | none => none
            | some r10 => some (String.mk nm, paramsToJson inner, r10)
      | none =>
        match stripLit "</invoke>".data r4 with
        | none => none
        | some r8 =>
          match stripLit mmCloseTag (dropWs r8) with
          | none => none
          | some r10 => some (String.mk nm, Json.obj [], r10)
    | _, _ => none

/-- Extracts every inline XML tool call from the accumulated turn text,
scanning left to right and resuming after each match, as the regex
`matchAll` does. -/
def extractCallsAux : Nat → List Char → List (String × Json)
  | 0, _ => []
  | fuel + 1, cs =>
    match splitAtLit mmOpenTag cs with
    | none => []
    | some (_, afterOpen) =>
      match parseInvoke afterOpen with
      | some (name, args, rest) => (name, args) :: extractCallsAux fuel rest
      | none => extractCallsAux fuel afterOpen

/-- Inline XML tool-call extraction over a turn text. -/
def extractInline (s : String) : List (String × Json) :=
  extractCallsAux (s.length + 1) s.data

/-! ### Tool-call markup stripping (`ChatService.processMessageStream`)

The source removes every `/<minimax:tool_call>.*?<\/minimax:tool_call>/gs`
match from the assistant text and trims the remainder. -/

/-- Removes every non-greedy open-to-close tool-call span. -/
def stripMarkupAux : Nat → List Char → List Char
  | 0, cs => cs
  | fuel + 1, cs =>
    match splitAtLit mmOpenTag cs with
    | none => cs
    | some (pre, afterOpen) =>
      match splitAtLit mmCloseTag afterOpen with
      | none => cs
      | some (_, afterClose) => pre ++ stripMarkupAux fuel afterClose

/-- Whitespace trimming on both ends, the `String.prototype.trim` of the
source (ASCII whitespace, which covers the wire payloads). -/
def trimChars (cs : List Char) : List Char :=
  ((cs.dropWhile isWsChar).reverse.dropWhile isWsChar).reverse

/-- The `cleanContent` computation: strip tool-call markup, then trim. -/
def cleanTurnText (s : String) : String :=
  String.mk (trimChars (stripMarkupAux (s.length + 1) s.data))

/-! ### The MiniMax streaming adapter (`MiniMaxProvider.stream`)

The adapter consumes Anthropic-format server-sent events. Each parsed
`data:` payload is modelled by an `MMEvent`; payloads that fail JSON
parsing, and event shapes the adapter ignores, are `unparseable`. The
generator is modelled as a fold that also reports whether the source
`return`ed early. -/

/-- One parsed wire event of the MiniMax stream. -/
inductive MMEvent where
  | thinkingDelta (s : String)
  | textDelta (s : String)
  | toolUseStart (id name : String)
  | inputJsonDelta (s : String)
  | messageStop
  | doneMarker
  | unparseable
deriving DecidableEq

/-- The in-flight structural tool call: id, name and the accumulated raw
argument text. -/
structure MMAcc where
  id : String
  name : String
  arguments : String
deriving DecidableEq

/-- Mutable locals of the MiniMax stream generator. -/
structure MMState where
  hasYieldThinking : Bool := false
  currentToolCall : Option MMAcc := none
  fullTextContent : String := ""
deriving DecidableEq

/-- The chain-of-thought open sentinel. -/
def mmThinkOpen : String := "[思考]"

/-- The chain-of-thought close sentinel. -/
def mmThinkClose : String := "[/思考]"

/-- A pure text chunk. -/
def contentChunk (s : String) : AIStreamChunk :=
  { content := some s, isComplete := false }

/-- The chunks yielded for the inline XML tool calls extracted from the
accumulated turn text. The source generates each id from the clock and a
random suffix; the id text is modelled by a fixed supply and is never
inspected by any claim. -/
def inlineCallChunks (text : String) : List AIStreamChunk :=
  (extractInline text).map fun nc =>
    { toolCall := some { id := "call-generated", name := nc.1, arguments := nc.2 },
      isComplete := false }

/-- Finalisation of the structural tool call at message stop: empty
argument text falls back to the literal text of an empty object before
parsing; a parse failure is caught and the call is not yielded. -/
def mmFinalizeStructural : Option MMAcc → List AIStreamChunk
  | none => []
  | some acc =>
    match jsonParse (if acc.arguments = "" then "\x7b\x7d" else acc.arguments) with
    | some j =>
      [{ toolCall := some { id := acc.id, name := acc.name, arguments := j },
         isComplete := false }]
    | none => []

/-- Everything yielded by the `message_stop` handler, in source order:
close an open thinking block, surface the inline XML calls, surface the
structural call, emit the final marker. -/
def mmStopChunks (st : MMState) : List AIStreamChunk :=
  (if st.hasYieldThinking then [contentChunk mmThinkClose] else [])
    ++ inlineCallChunks st.fullTextContent
    ++ mmFinalizeStructural st.currentToolCall
    ++ [finalChunk]

/-- Processes one wire event: the chunks yielded, the updated state, and
whether the generator returned. -/
def mmStep (st : MMState) : MMEvent → List AIStreamChunk × MMState × Bool
  | .thinkingDelta s =>
    if s = "" then ([], st, false)
    else if st.hasYieldThinking then ([contentChunk s], st, false)
    else ([contentChunk mmThinkOpen, contentChunk s],
      { st with hasYieldThinking := true }, false)
  | .textDelta s =>
    if s = "" then ([], st, false)
    else
      let st1 : MMState := { st with fullTextContent := st.fullTextContent ++ s }
      if st.hasYieldThinking then
        ([contentChunk mmThinkClose, contentChunk s],
          { st1 with hasYieldThinking := false }, false)
      else ([contentChunk s], st1, false)
  | .toolUseStart id name =>
    ([], { st with currentToolCall := some { id := id, name := name, arguments := "" } },
      false)
  | .inputJsonDelta s =>
    if s = "" then ([], st, false)
    else
      match st.currentToolCall with
      | none => ([], st, false)
      | some acc =>
        let acc1 : MMAcc := { acc with arguments := acc.arguments ++ s }
        ([], { st with currentToolCall := some acc1 }, false)
  | .messageStop => (mmStopChunks st, st, true)
  | .doneMarker => ([finalChunk], st, true)
  | .unparseable => ([], st, false)

/-- Runs the generator over the remaining events; when the wire ends
without an early return, the trailing final marker is emitted. -/
def mmRun : List MMEvent → MMState → List AIStreamChunk
  | [], _ => [finalChunk]
  | e :: es, st =>
    match mmStep st e with
    | (cs, st1, stop) => if stop then cs else cs ++ mmRun es st1

/-- The initial generator state. -/
def MMState.init : MMState :=
  { hasYieldThinking := false, currentToolCall := none, fullTextContent := "" }

/-- The full MiniMax stream from the initial generator state. -/
def mmStream (events : List MMEvent) : List AIStreamChunk :=
  mmRun events MMState.init

/-- The tool calls surfaced by a MiniMax stream, in order. -/
def mmToolCalls (events : List MMEvent) : List ToolCall :=
  (mmStream events).filterMap (·.toolCall)

/-- The concatenated emitted text of a chunk sequence. -/
def emittedText (cs : List AIStreamChunk) : String :=
  String.join (cs.filterMap (·.content))

/-- Counts non-overlapping occurrences of a pattern, scanning left to
right. -/
def countOccur (pat : List Char) : Nat → List Char → Nat
  | 0, _ => 0
  | _ + 1, [] => 0
  | fuel + 1, c :: cs =>
    match stripLit pat (c :: cs) with
    | some rest => 1 + countOccur pat fuel rest
    | none => countOccur pat fuel cs

/-- Occurrence count of a pattern inside a string. -/
def countSub (pat s : String) : Nat :=
  countOccur pat.data (s.length + 1) s.data

/-! ### The DeepSeek stream finaliser (`DeepSeekProvider.stream`,
finish-reason handler, from the provider walkthrough in CONTRIBUTING.md).
`JSON.parse` is not guarded here: a parse failure propagates out of the
generator. The Claude adapter has the same unguarded shape. -/

/-- Finalisation at the finish marker of the delta-accumulation family. -/
def dsFinish (cur : Option MMAcc) : Except String (List AIStreamChunk) :=
  match cur with
  | none => .ok [finalChunk]
  | some acc =>
    match jsonParse (if acc.arguments = "" then "\x7b\x7d" else acc.arguments) with
    | some j =>
      .ok [{ toolCall := some { id := acc.id, name := acc.name, arguments := j },
             isComplete := true }]
    | none => .error "SyntaxError"

/-! ### The Ollama streaming adapter (`OllamaProvider.stream`)

The wire is line-delimited JSON. Each non-blank line is modelled by an
`Option OllamaLine`: `none` for a line whose JSON parse fails (silently
skipped), otherwise the `message.content` field and the `done` flag. -/

/-- One parsed line of the Ollama wire. -/
structure OllamaLine where
  content : Option String := none
  done : Bool := false
deriving DecidableEq

/-- The chunks yielded for one wire line: a content chunk when
`message.content` is truthy (carrying the current `done` flag), then a
final marker when `done` is truthy. -/
def ollamaLineChunks : Option OllamaLine → List AIStreamChunk
  | none => []
  | some d =>
    (match d.content with
      | some c => if c = "" then [] else [{ content := some c, isComplete := d.done }]
      | none => [])
      ++ (if d.done then [finalChunk] else [])

/-- The full Ollama stream: the per-line chunks, then the unconditional
final marker emitted after the read loop. -/
def ollamaStreamChunks (lines : List (Option OllamaLine)) : List AIStreamChunk :=
  (lines.map ollamaLineChunks).flatten ++ [finalChunk]

/-- The stream entry point: a transport failure before streaming
propagates immediately; there is no retry wrapper. -/
def ollamaStream (fetched : Except String (List (Option OllamaLine))) :
    Except String (List AIStreamChunk) :=
  match fetched with
  | .error e => .error e
  | .ok lines => .ok (ollamaStreamChunks lines)

/-! ### Bounded retry (`BaseAIProvider.retry`)

The impure thunk is modelled as a function from the attempt index to that
invocation's outcome. The trace records the result, the delays slept
between attempts, and the number of invocations. A `result` of
`.error none` corresponds to the `throw lastError` with `lastError` still
undefined, reachable only with a zero retry budget. -/

/-- The observable outcome of a `retry` run. -/
structure RetryTrace (ε α : Type) where
  result : Except (Option ε) α
  delays : List Nat
  attempts : Nat

/-- The retry loop: `remaining` attempts left, `i` the current attempt
index; a delay of `delayMs * (i + 1)` is slept after every failed attempt
except the last. -/
def retryGo (fn : Nat → Except ε α) (delayMs : Nat) :
    Nat → Nat → Option ε → RetryTrace ε α
  | 0, _, last => { result := .error last, delays := [], attempts := 0 }
  | remaining + 1, i, _ =>
    match fn i with
    | .ok a => { result := .ok a, delays := [], attempts := 1 }
    | .error e =>
      let ds := if 0 < remaining then [delayMs * (i + 1)] else []
      let rest := retryGo fn delayMs remaining (i + 1) (some e)
      { result := rest.result, delays := ds ++ rest.delays,
        attempts := rest.attempts + 1 }

/-- `BaseAIProvider.retry` with explicit bound and base delay (the source
defaults are 3 attempts and 1000 ms). -/
def retry (fn : Nat → Except ε α) (maxRetries delayMs : Nat) : RetryTrace ε α :=
  retryGo fn delayMs maxRetries 0 none

/-- A parsed chat response (`AIResponse`). -/
structure AIResponse where
  content : String
  toolCalls : List ToolCall := []
deriving DecidableEq

/-- `OllamaProvider.chat`: the whole fetch-and-parse thunk is wrapped in
the base retry with its default bound and delay. The thunk is modelled by
the per-attempt outcome function. -/
def ollamaChat (attempt : Nat → Except String AIResponse) : RetryTrace String AIResponse :=
  retry attempt 3 1000

/-! ### Tool registry (`ToolRegistry.execute`) and tasks
(`TaskExecutor`) -/

/-- A tool execution result (`ToolResult`). -/
structure ToolResult where
  success : Bool
  data : Option Json := none
  error : Option String := none
deriving DecidableEq

/-- A registered tool implementation; an `Except.error` models a thrown
exception, which `execute` catches. -/
abbrev ToolImpl : Type := Json → Except String ToolResult

/-- The registry contents: name to implementation. -/
abbrev ToolRegistry : Type := List (String × ToolImpl)

/-- Map lookup on the registry. -/
def lookupTool : ToolRegistry → String → Option ToolImpl
  | [], _ => none
  | (n, f) :: rest, name => if n = name then some f else lookupTool rest name

/-- `ToolRegistry.execute`: an unknown name returns a failure result, and
a thrown tool exception is caught and converted to a failure result;
the function is total and never propagates an error. -/
def registryExecute (tools : ToolRegistry) (name : String) (params : Json) : ToolResult :=
  match lookupTool tools name with
  | none => { success := false, error := some ("工具不存在: " ++ name) }
  | some f =>
    match f params with
    | .ok r => r
    | .error e => { success := false, error := some ("工具执行失败: " ++ e) }

/-- Task lifecycle states. -/
inductive TaskStatus where
  | pending
  | running
  | completed
  | failed
  | cancelled
deriving DecidableEq

/-- A lifecycle-tracked tool invocation (`Task`); `params` is the wrapped
tool call. -/
structure Task where
  id : String
  type : String
  params : ToolCall
  status : TaskStatus
  result : Option ToolResult := none
  error : Option String := none
  createdAt : Nat
  updatedAt : Nat
deriving DecidableEq

/-- `TaskExecutor.createTask`. -/
def createTask (id type : String) (params : ToolCall) (now : Nat) : Task :=
  { id := id, type := type, params := params, status := .pending,
    createdAt := now, updatedAt := now }

/-- `TaskExecutor.execute`: the task transitions to running, the tool is
dispatched through the registry, and the final status follows the result
success flag. The catch branch of the source is unreachable because
`registryExecute` is total. -/
def taskExecute (tools : ToolRegistry) (now : Nat) (task : Task) : Task :=
  let t1 : Task := { task with status := .running, updatedAt := now }
  let r := registryExecute tools t1.params.name t1.params.arguments
  { t1 with result := some r,
            status := if r.success then .completed else .failed,
            updatedAt := now }

/-- `TaskExecutor.executeToolCalls`: sequential batch execution that stops
after the first failed result. -/
def executeToolCalls (tools : ToolRegistry) : List ToolCall → List ToolResult
  | [] => []
  | c :: rest =>
    let r := registryExecute tools c.name c.arguments
    if r.success then r :: executeToolCalls tools rest else [r]

/-! ### Sessions and messages (`ChatService`) -/

/-- A message role. -/
inductive Role where
  | user
  | assistant
  | system
deriving DecidableEq

/-- A chat message. -/
structure Msg where
  role : Role
  content : String
  timestamp : Option Nat := none
deriving DecidableEq

/-- A chat session. -/
structure ChatSession where
  id : String
  messages : List Msg
  createdAt : Nat
  updatedAt : Nat
deriving DecidableEq

/-- The session store, a map from session id to session. -/
abbrev SessionMap : Type := List (String × ChatSession)

/-- `sessions.get(sessionId)`. -/
def lookupSession : SessionMap → String → Option ChatSession
  | [], _ => none
  | (k, s) :: rest, sid => if k = sid then some s else lookupSession rest sid

/-- `ChatService.createSession`, with the freshly generated id made
explicit: a new empty session is stored under `freshId`. -/
def createSession (m : SessionMap) (freshId : String) (now : Nat) : SessionMap :=
  (freshId, { id := freshId, messages := [], createdAt := now, updatedAt := now }) :: m

/-- `ChatService.addMessage`: appends the timestamped message to the
session when the id is present, and does nothing otherwise. -/
def addMessage (m : SessionMap) (sid : String) (msg : Msg) (now : Nat) : SessionMap :=
  m.map fun ks =>
    if ks.1 = sid then
      (ks.1, { ks.2 with
        messages := ks.2.messages ++ [{ msg with timestamp := some now }],
        updatedAt := now })
    else ks

/-- `ChatService.getMessages`: the whole log, or the last `limit` entries
when a positive limit is given. -/
def getMessages (m : SessionMap) (sid : String) (limit : Option Nat) : List Msg :=
  match lookupSession m sid with
  | none => []
  | some s =>
    match limit with
    | some l => if 0 < l then s.messages.drop (s.messages.length - l) else s.messages
    | none => s.messages

/-! ### The orchestration loop (`ChatService.processMessageStream`)

One provider turn is summarised by its concatenated text deltas and its
finalized tool calls, in arrival order up to the first final chunk. The
deterministic provider is a function from the stream-call index to the
turn it produces; iteration `k` of the while loop consumes stream calls
`2k` and `2k + 1`. -/

/-- One streamed assistant turn as the loop observes it. -/
structure Turn where
  text : String
  calls : List ToolCall
deriving DecidableEq

/-- Serialisation of a tool result used in the synthetic context
message, `JSON.stringify(result.result)` with undefined fields omitted. -/
def toolResultJson (r : ToolResult) : Json :=
  .obj ([("success", Json.bool r.success)]
    ++ (match r.data with | some d => [("data", d)] | none => [])
    ++ (match r.error with | some e => [("error", Json.str e)] | none => []))

/-- The synthetic context message recording one tool result. -/
def sysResultMsg (c : ToolCall) (r : ToolResult) : String :=
  "工具 " ++ c.name ++ " 执行结果: " ++ (toolResultJson r).stringify

/-- The synthetic completion notice of the duplicate-call guard. -/
def dupNotice : String := "\n\n任务已完成。"

/-- The truncation notice appended when the round cap is reached. -/
def truncNotice : String := "\n\n[已达到最大处理轮数，任务可能未完全完成]"

/-- The loop state the claims observe: the session store, the contents
passed to the chunk callback, and every tool call executed, in order. -/
structure RunState where
  sessions : SessionMap
  visible : List String
  executed : List ToolCall

/-- The tool result produced for one call of a turn: the call is wrapped
in a task and dispatched (`createTask` then `TaskExecutor.execute`). -/
def execOne (tools : ToolRegistry) (now : Nat) (c : ToolCall) : ToolResult :=
  match (taskExecute tools now (createTask "task" "tool_call" c now)).result with
  | some r => r
  | none => { success := false }

/-- Executes the calls of a turn in order: every call runs regardless of
earlier failures, and each result is appended to the conversation as a
synthetic context message. -/
def execCalls (tools : ToolRegistry) (sid : String) (now : Nat)
    (rs : RunState) (calls : List ToolCall) : RunState :=
  calls.foldl
    (fun acc c =>
      let r := execOne tools now c
      { acc with
          sessions := addMessage acc.sessions sid
            { role := .system, content := sysResultMsg c r } now,
          executed := acc.executed ++ [c] })
    rs

/-- The duplicate-call guard condition: the follow-up turn produced no
cleaned text, it has a first call, and that call repeats the name and the
stringified arguments of the last executed call of the current turn. -/
def dupFires (t1 t2 : Turn) : Bool :=
  (cleanTurnText t2.text == "") && (!t2.calls.isEmpty) &&
    (match t1.calls.getLast?, t2.calls.head? with
      | some a, some b =>
        (a.name == b.name) && (a.arguments.stringify == b.arguments.stringify)
      | _, _ => false)

/-- How one while-loop iteration ended. -/
inductive RoundOut where
  | complete
  | dupStop
  | continueLoop
deriving DecidableEq

/-- Appends the cleaned assistant text to the log when it is non-empty. -/
def addAssistant (sessions : SessionMap) (sid : String) (clean : String)
    (now : Nat) : SessionMap :=
  if clean = "" then sessions
  else addMessage sessions sid { role := .assistant, content := clean } now

/-- One iteration of the while loop of `processMessageStream`, consuming
stream calls `k` (the turn) and `k + 1` (the follow-up turn): stream,
persist cleaned text, execute the pending calls, stream the follow-up,
persist its cleaned text, apply the duplicate-call guard, then either
execute the new calls and continue or stop. -/
def roundStep (tools : ToolRegistry) (provider : Nat → Turn) (sid : String)
    (now : Nat) (k : Nat) (rs : RunState) : RunState × RoundOut :=
  let t1 := provider k
  let rs1 : RunState :=
    { rs with
        sessions := addAssistant rs.sessions sid (cleanTurnText t1.text) now,
        visible := rs.visible ++ [t1.text] }
  if t1.calls.isEmpty then (rs1, .complete)
  else
    let rs2 := execCalls tools sid now rs1 t1.calls
    let t2 := provider (k + 1)
    let rs3 : RunState :=
      { rs2 with
          sessions := addAssistant rs2.sessions sid (cleanTurnText t2.text) now,
          visible := rs2.visible ++ [t2.text] }
    if dupFires t1 t2 then
      ({ rs3 with visible := rs3.visible ++ [dupNotice] }, .dupStop)
    else if t2.calls.isEmpty then (rs3, .complete)
    else (execCalls tools sid now rs3 t2.calls, .continueLoop)

/-- The while loop of `processMessageStream`: `remaining` rounds left in
the budget, `k` the next stream-call index. Returns the final state and
the number of rounds entered. -/
def loopGo (tools : ToolRegistry) (provider : Nat → Turn) (sid : String) (now : Nat) :
    Nat → Nat → RunState → RunState × Nat
  | 0, _, rs => (rs, 0)
  | remaining + 1, k, rs =>
    match roundStep tools provider sid now k rs with
    | (rs1, .continueLoop) =>
      let next := loopGo tools provider sid now remaining (k + 2) rs1
      (next.1, next.2 + 1)
    | (rs1, _) => (rs1, 1)

/-- The round cap of the source, `maxRounds = 5`. -/
def maxRounds : Nat := 5

/-- `ChatService.processMessageStream`: get-or-create the session (the
replacement session is stored under the freshly generated `freshId`),
append the user message under the original `sessionId`, run the bounded
loop, and append the truncation notice when the round counter reached the
cap. -/
def processMessageStream (tools : ToolRegistry) (provider : Nat → Turn)
    (sessions : SessionMap) (sessionId freshId content : String) (now : Nat) :
    RunState × Nat :=
  let s0 :=
    match lookupSession sessions sessionId with
    | none => createSession sessions freshId now
    | some _ => sessions
  let s1 := addMessage s0 sessionId { role := .user, content := content } now
  let r := loopGo tools provider sessionId now maxRounds 0
    { sessions := s1, visible := [], executed := [] }
  (if maxRounds ≤ r.2 then
    { r.1 with visible := r.1.visible ++ [truncNotice] }
  else r.1, r.2)

/-! ### Observation helpers used by the statements -/

/-- Number of emitted chunks whose text is exactly the open sentinel. -/
def sentinelOpens (cs : List AIStreamChunk) : Nat :=
  cs.countP (fun c => c.content == some mmThinkOpen)

/-- Number of emitted chunks whose text is exactly the close sentinel. -/
def sentinelCloses (cs : List AIStreamChunk) : Nat :=
  cs.countP (fun c => c.content == some mmThinkClose)

/-- The open-thinking flag viewed as a count. -/
def thinkFlag (st : MMState) : Nat :=
  if st.hasYieldThinking then 1 else 0

/-- An event that neither terminates the stream nor carries a payload
that is itself literally one of the sentinels (model output does not
impersonate the sentinel chunks). -/
def benignEvent : MMEvent → Bool
  | .thinkingDelta s => !(s == mmThinkOpen) && !(s == mmThinkClose)
  | .textDelta s => !(s == mmThinkOpen) && !(s == mmThinkClose)
  | .toolUseStart _ _ => true
  | .inputJsonDelta _ => true
  | .unparseable => true
  | .messageStop => false
  | .doneMarker => false

/-- Number of final markers contributed by one Ollama wire line, computed
from its fields: a `done` line contributes its dedicated final marker,
plus the content chunk that also carries the done flag when the content
is truthy. -/
def ollamaLineFinalCount : Option OllamaLine → Nat
  | none => 0
  | some d =>
    if d.done then
      match d.content with
      | some c => if c = "" then 1 else 2
      | none => 1
    else 0

/-- Whether a wire line reports done. -/
def lineDone : Option OllamaLine → Bool
  | none => false
  | some d => d.done

/-! ## Helper lemmas -/

/-- Adding a message under an id absent from the store is a no-op. -/
theorem addMessage_notin (m : SessionMap) (sid : String) (msg : Msg) (now : Nat)
    (h : lookupSession m sid = none) : addMessage m sid msg now = m := by
  induction m with
  | nil => rfl
  | cons head tail ih =>
    obtain ⟨k, s⟩ := head
    simp only [lookupSession] at h
    by_cases hk : k = sid
    · simp [hk] at h
    · simp only [addMessage, List.map] at *
      simp [hk, ih (by simpa [hk] using h)]

/-- `execCalls` executes every call of the list, in order. -/
theorem execCalls_executed (tools : ToolRegistry) (sid : String) (now : Nat) :
    ∀ (calls : List ToolCall) (rs : RunState),
      (execCalls tools sid now rs calls).executed = rs.executed ++ calls := by
  intro calls
  induction calls with
  | nil => intro rs; simp [execCalls]
  | cons c rest ih =>
    intro rs
    simp only [execCalls, List.foldl_cons] at *
    rw [ih]
    simp

/-- `execCalls` leaves the session store unchanged when the session id is
absent from it. -/
theorem execCalls_sessions_notin (tools : ToolRegistry) (sid : String) (now : Nat) :
    ∀ (calls : List ToolCall) (rs : RunState),
      lookupSession rs.sessions sid = none →
      (execCalls tools sid now rs calls).sessions = rs.sessions := by
  intro calls
  induction calls with
  | nil => intro rs _; simp [execCalls]
  | cons c rest ih =>
    intro rs h
    simp only [execCalls, List.foldl_cons] at *
    rw [addMessage_notin _ _ _ _ h]
    exact ih _ h

/-- Appending cleaned assistant text under an absent id is a no-op. -/
theorem addAssistant_notin (m : SessionMap) (sid clean : String) (now : Nat)
    (h : lookupSession m sid = none) : addAssistant m sid clean now = m := by
  unfold addAssistant
  split
  · rfl
  · exact addMessage_notin _ _ _ _ h

/-- One round leaves the session store unchanged when the session id is
absent from it. -/
theorem roundStep_sessions_notin (tools : ToolRegistry) (provider : Nat → Turn)
    (sid : String) (now k : Nat) (rs : RunState)
    (h : lookupSession rs.sessions sid = none) :
    (roundStep tools provider sid now k rs).1.sessions = rs.sessions := by
  have e1 := addAssistant_notin rs.sessions sid (cleanTurnText (provider k).text) now h
  simp only [roundStep]
  split
  · simpa using e1
  · have e2 : (execCalls tools sid now
        { rs with
            sessions := addAssistant rs.sessions sid (cleanTurnText (provider k).text) now,
            visible := rs.visible ++ [(provider k).text] }
        (provider k).calls).sessions = rs.sessions := by
      rw [execCalls_sessions_notin]
      · simpa using e1
      · simpa [e1] using h
    have e3 := addAssistant_notin _ sid (cleanTurnText (provider (k + 1)).text) now
      (by simpa [e2] using h)
    split
    · simpa [e2] using e3
    · split
      · simpa [e2] using e3
      · rw [execCalls_sessions_notin]
        · simpa [e2] using e3
        · simp only [e3, e2]
          exact h

/-- A round with calls in both turns and no duplicate-guard hit
continues the loop. -/
theorem roundStep_continue (tools : ToolRegistry) (provider : Nat → Turn)
    (sid : String) (now k : Nat) (rs : RunState)
    (h1 : (provider k).calls ≠ [])
    (h2 : (provider (k + 1)).calls ≠ [])
    (hd : dupFires (provider k) (provider (k + 1)) = false) :
    (roundStep tools provider sid now k rs).2 = .continueLoop := by
  simp only [roundStep]
  rw [if_neg (by simpa [List.isEmpty_iff] using h1)]
  rw [if_neg (by simp [hd])]
  rw [if_neg (by simpa [List.isEmpty_iff] using h2)]

/-- The loop never runs more rounds than its remaining budget. -/
theorem loopGo_rounds_le (tools : ToolRegistry) (provider : Nat → Turn)
    (sid : String) (now : Nat) :
    ∀ (remaining k : Nat) (rs : RunState),
      (loopGo tools provider sid now remaining k rs).2 ≤ remaining := by
  intro remaining
  induction remaining with
  | zero => intro k rs; simp [loopGo]
  | succ r ih =>
    intro k rs
    simp only [loopGo]
    split
    · simpa using Nat.succ_le_succ (ih (k + 2) _)
    · have := Nat.succ_le_succ (Nat.zero_le r)
      omega

/-- When every turn carries a tool call and the duplicate guard never
fires, every round continues and the whole budget is used. -/
theorem loopGo_all_continue (tools : ToolRegistry) (provider : Nat → Turn)
    (sid : String) (now : Nat)
    (hcalls : ∀ n, (provider n).calls ≠ [])
    (hdup : ∀ n, dupFires (provider n) (provider (n + 1)) = false) :
    ∀ (remaining k : Nat) (rs : RunState),
      (loopGo tools provider sid now remaining k rs).2 = remaining := by
  intro remaining
  induction remaining with
  | zero => intro k rs; simp [loopGo]
  | succ r ih =>
    intro k rs
    have hc := roundStep_continue tools provider sid now k rs
      (hcalls k) (hcalls (k + 1)) (hdup k)
    rcases hr : roundStep tools provider sid now k rs with ⟨rs1, out⟩
    rw [hr] at hc
    simp only at hc
    subst hc
    simp only [loopGo, hr]
    simp [ih (k + 2)]

/-- `execCalls` never touches the visible output. -/
theorem execCalls_visible (tools : ToolRegistry) (sid : String) (now : Nat) :
    ∀ (calls : List ToolCall) (rs : RunState),
      (execCalls tools sid now rs calls).visible = rs.visible := by
  intro calls
  induction calls with
  | nil => intro rs; simp [execCalls]
  | cons c rest ih =>
    intro rs
    simp only [execCalls, List.foldl_cons] at *
    rw [ih]

/-- The whole loop leaves the session store unchanged when the session id
is absent from it. -/
theorem loopGo_sessions_notin (tools : ToolRegistry) (provider : Nat → Turn)
    (sid : String) (now : Nat) :
    ∀ (remaining k : Nat) (rs : RunState),
      lookupSession rs.sessions sid = none →
      (loopGo tools provider sid now remaining k rs).1.sessions = rs.sessions := by
  intro remaining
  induction remaining with
  | zero => intro k rs _; simp [loopGo]
  | succ r ih =>
    intro k rs h
    rcases hr : roundStep tools provider sid now k rs with ⟨rs1, out⟩
    have hs : rs1.sessions = rs.sessions := by
      have hgen := roundStep_sessions_notin tools provider sid now k rs h
      rw [hr] at hgen
      exact hgen
    cases out with
    | continueLoop =>
      simp only [loopGo, hr]
      rw [ih (k + 2) rs1 (by rw [hs]; exact h)]
      exact hs
    | complete =>
      simp only [loopGo, hr]
      exact hs
    | dupStop =>
      simp only [loopGo, hr]
      exact hs

/-- `executeToolCalls` aborts the batch at the first failed result. -/
theorem executeToolCalls_stops (tools : ToolRegistry) :
    ∀ (pre : List ToolCall) (f : ToolCall) (post : List ToolCall),
      (∀ c ∈ pre, (registryExecute tools c.name c.arguments).success = true) →
      (registryExecute tools f.name f.arguments).success = false →
      executeToolCalls tools (pre ++ f :: post) =
        pre.map (fun c => registryExecute tools c.name c.arguments) ++
          [registryExecute tools f.name f.arguments] := by
  intro pre
  induction pre with
  | nil =>
    intro f post _ hf
    simp [executeToolCalls, hf]
  | cons c rest ih =>
    intro f post hpre hf
    have hc := hpre c (List.mem_cons_self c rest)
    simp only [List.cons_append, executeToolCalls]
    rw [if_pos hc]
    simp only [List.append_eq]
    rw [ih f post (fun d hd => hpre d (List.mem_cons_of_mem c hd)) hf]
    simp

/-! ## Claims -/

/-- C2. The round counter of `processMessageStream` never exceeds the
configured maximum of 5 before the loop stops; and for a deterministic
provider whose every turn carries at least one tool call and which never
triggers the duplicate-call guard, the loop runs exactly 5 rounds and
appends the truncation notice as the last visible output. -/
theorem round_cap_exact (tools : ToolRegistry) (provider : Nat → Turn)
    (sessions : SessionMap) (sessionId freshId content : String) (now : Nat) :
    (processMessageStream tools provider sessions sessionId freshId content now).2 ≤ 5 ∧
    ((∀ n, (provider n).calls ≠ []) →
      (∀ n, dupFires (provider n) (provider (n + 1)) = false) →
      (processMessageStream tools provider sessions sessionId freshId content now).2 = 5 ∧
      (processMessageStream tools provider sessions sessionId freshId content
          now).1.visible.getLast? = some truncNotice) := by
  constructor
  · exact loopGo_rounds_le tools provider sessionId now maxRounds 0 _
  · intro hcalls hdup
    constructor
    · exact loopGo_all_continue tools provider sessionId now hcalls hdup maxRounds 0 _
    · simp only [processMessageStream]
      rw [loopGo_all_continue tools provider sessionId now hcalls hdup]
      simp [List.getLast?_concat]

/-- C2 witness. -/
theorem round_cap_exact_witness :
    (processMessageStream []
      (fun _ => { text := "hi", calls := [{ id := "i", name := "shot", arguments := Json.obj [] }] })
      [] "s" "f" "go" 0).2 = 5 ∧
    (processMessageStream []
      (fun _ => { text := "hi", calls := [{ id := "i", name := "shot", arguments := Json.obj [] }] })
      [] "s" "f" "go" 0).1.visible.getLast? = some truncNotice :=
  (round_cap_exact []
    (fun _ => { text := "hi", calls := [{ id := "i", name := "shot", arguments := Json.obj [] }] })
    [] "s" "f" "go" 0).2 (fun _ => by decide) (fun _ => by decide)

/-- C3. When the current round executed at least one call, the follow-up
turn produced no text after markup stripping, and its first tool call
repeats the name and arguments of the last executed call, the round
force-terminates by the duplicate guard: the repeated call is not
executed (exactly the current turn's calls were executed) and the
synthetic completion notice is the last visible output. -/
theorem dup_guard_stops (tools : ToolRegistry) (provider : Nat → Turn)
    (sid : String) (now k : Nat) (rs : RunState) (c1 c2 : ToolCall)
    (h1 : (provider k).calls ≠ [])
    (h2 : cleanTurnText (provider (k + 1)).text = "")
    (hl : (provider k).calls.getLast? = some c1)
    (hh : (provider (k + 1)).calls.head? = some c2)
    (hn : c1.name = c2.name)
    (ha : c1.arguments = c2.arguments) :
    (roundStep tools provider sid now k rs).2 = .dupStop ∧
    (roundStep tools provider sid now k rs).1.executed =
      rs.executed ++ (provider k).calls ∧
    (roundStep tools provider sid now k rs).1.visible.getLast? = some dupNotice := by
  have hne2 : (provider (k + 1)).calls ≠ [] := by
    intro hnil
    rw [hnil] at hh
    cases hh
  have hdup : dupFires (provider k) (provider (k + 1)) = true := by
    unfold dupFires
    rw [hl, hh]
    simp [h2, hn, ha, List.isEmpty_iff, hne2]
  simp only [roundStep]
  rw [if_neg (by simpa [List.isEmpty_iff] using h1), if_pos hdup]
  refine ⟨rfl, ?_, ?_⟩
  · simp [execCalls_executed]
  · simp [List.getLast?_concat]

/-- C3 witness. -/
theorem dup_guard_stops_witness :
    (roundStep []
      (fun n => if n = 0
        then { text := "doing", calls := [{ id := "i", name := "shot", arguments := Json.obj [] }] }
        else { text := "", calls := [{ id := "j", name := "shot", arguments := Json.obj [] }] })
      "s" 0 0 { sessions := [], visible := [], executed := [] }).2 = .dupStop ∧
    (roundStep []
      (fun n => if n = 0
        then { text := "doing", calls := [{ id := "i", name := "shot", arguments := Json.obj [] }] }
        else { text := "", calls := [{ id := "j", name := "shot", arguments := Json.obj [] }] })
      "s" 0 0 { sessions := [], visible := [], executed := [] }).1.executed =
      [] ++ [{ id := "i", name := "shot", arguments := Json.obj [] }] ∧
    (roundStep []
      (fun n => if n = 0
        then { text := "doing", calls := [{ id := "i", name := "shot", arguments := Json.obj [] }] }
        else { text := "", calls := [{ id := "j", name := "shot", arguments := Json.obj [] }] })
      "s" 0 0 { sessions := [], visible := [], executed := [] }).1.visible.getLast?
      = some dupNotice := by
  have h := dup_guard_stops []
    (fun n => if n = 0
      then { text := "doing", calls := [{ id := "i", name := "shot", arguments := Json.obj [] }] }
      else { text := "", calls := [{ id := "j", name := "shot", arguments := Json.obj [] }] })
    "s" 0 0 { sessions := [], visible := [], executed := [] }
    { id := "i", name := "shot", arguments := Json.obj [] }
    { id := "j", name := "shot", arguments := Json.obj [] }
    (by decide) (by decide) (by decide) (by decide) (by decide) (by decide)
  simpa using h

/-- C8. `ToolRegistry.execute` on an unregistered name returns a failure
result with an error message and never throws; a task wrapping such a
call finishes in status `failed`; and the orchestration loop continues:
`execCalls` executes every call of the batch regardless of failures, and
each result, including the failure, is appended to the conversation as a
synthetic context message. -/
theorem unknown_tool_failure (tools : ToolRegistry) (name : String) (args : Json)
    (now : Nat) (tid ty cid : String)
    (h : lookupTool tools name = none) :
    registryExecute tools name args =
      { success := false, data := none, error := some ("工具不存在: " ++ name) } ∧
    (taskExecute tools now
      (createTask tid ty { id := cid, name := name, arguments := args } now)).status
      = .failed ∧
    (∀ (sid : String) (rs : RunState) (calls : List ToolCall),
      (execCalls tools sid now rs calls).executed = rs.executed ++ calls) ∧
    (∀ (sid : String) (rs : RunState) (c : ToolCall),
      (execCalls tools sid now rs [c]).sessions =
        addMessage rs.sessions sid
          { role := .system, content := sysResultMsg c (execOne tools now c) } now) := by
  refine ⟨?_, ?_, ?_, ?_⟩
  · simp [registryExecute, h]
  · simp [taskExecute, createTask, registryExecute, h]
  · intro sid rs calls
    exact execCalls_executed tools sid now calls rs
  · intro sid rs c
    simp [execCalls]

/-- C8 witness. -/
theorem unknown_tool_failure_witness :
    registryExecute [] "nope" (Json.obj []) =
      { success := false, data := none, error := some ("工具不存在: " ++ "nope") } ∧
    (taskExecute [] 0
      (createTask "t1" "tool_call" { id := "c1", name := "nope", arguments := Json.obj [] } 0)).status
      = .failed ∧
    (∀ (sid : String) (rs : RunState) (calls : List ToolCall),
      (execCalls [] sid 0 rs calls).executed = rs.executed ++ calls) ∧
    (∀ (sid : String) (rs : RunState) (c : ToolCall),
      (execCalls [] sid 0 rs [c]).sessions =
        addMessage rs.sessions sid
          { role := .system, content := sysResultMsg c (execOne [] 0 c) } 0) :=
  unknown_tool_failure [] "nope" (Json.obj []) 0 "t1" "tool_call" "c1" rfl

/-- C9. The two batch-execution paths diverge on failure:
`TaskExecutor.executeToolCalls` executes in order and stops after the
first failed result, returning exactly the results up to and including
it, whereas the loop's `execCalls` executes every call of the turn
regardless of individual failures. -/
theorem batch_failure_semantics (tools : ToolRegistry) (pre post : List ToolCall)
    (f : ToolCall)
    (hpre : ∀ c ∈ pre, (registryExecute tools c.name c.arguments).success = true)
    (hf : (registryExecute tools f.name f.arguments).success = false) :
    executeToolCalls tools (pre ++ f :: post) =
      pre.map (fun c => registryExecute tools c.name c.arguments) ++
        [registryExecute tools f.name f.arguments] ∧
    (∀ (sid : String) (now : Nat) (rs : RunState) (calls : List ToolCall),
      (execCalls tools sid now rs calls).executed = rs.executed ++ calls) := by
  constructor
  · exact executeToolCalls_stops tools pre f post hpre hf
  · intro sid now rs calls
    exact execCalls_executed tools sid now calls rs

/-- C9 witness: with one succeeding call before an unknown-tool failure
and one call after it, the task-executor batch returns two results while
the loop path executes all three calls. -/
theorem batch_failure_semantics_witness :
    executeToolCalls [("ok", fun _ => .ok { success := true })]
      (([{ id := "a", name := "ok", arguments := Json.obj [] }] : List ToolCall) ++
        ({ id := "b", name := "bad", arguments := Json.obj [] } : ToolCall) ::
          [{ id := "c", name := "ok", arguments := Json.obj [] }]) =
      ([{ id := "a", name := "ok", arguments := Json.obj [] }] : List ToolCall).map
        (fun c => registryExecute [("ok", fun _ => .ok { success := true })] c.name c.arguments) ++
        [registryExecute [("ok", fun _ => .ok { success := true })] "bad" (Json.obj [])] ∧
    (∀ (sid : String) (now : Nat) (rs : RunState) (calls : List ToolCall),
      (execCalls [("ok", fun _ => .ok { success := true })] sid now rs calls).executed
        = rs.executed ++ calls) := by
  have h := batch_failure_semantics [("ok", fun _ => .ok { success := true })]
    [{ id := "a", name := "ok", arguments := Json.obj [] }]
    [{ id := "c", name := "ok", arguments := Json.obj [] }]
    { id := "b", name := "bad", arguments := Json.obj [] }
    (by intro c hc; simp at hc; subst hc; rfl) rfl
  exact h

/-- C10. `ChatService.addMessage` with a session id absent from the store
is a no-op; consequently a `processMessageStream` call for an unknown
session id, whose replacement session is stored under a fresh id, appends
the user message and every later message of the turn to no session:
`getMessages` for that id stays empty and every previously stored session
is unchanged. -/
theorem unknown_session_no_write (tools : ToolRegistry) (provider : Nat → Turn)
    (sessions : SessionMap) (sessionId freshId content : String) (now : Nat)
    (h : lookupSession sessions sessionId = none)
    (hf : freshId ≠ sessionId) :
    (∀ (msg : Msg) (now2 : Nat), addMessage sessions sessionId msg now2 = sessions) ∧
    getMessages
      (processMessageStream tools provider sessions sessionId freshId content now).1.sessions
      sessionId none = [] ∧
    (∀ sid, sid ≠ freshId →
      lookupSession
        (processMessageStream tools provider sessions sessionId freshId content
          now).1.sessions sid
        = lookupSession sessions sid) := by
  have hs0 : lookupSession (createSession sessions freshId now) sessionId = none := by
    simp [createSession, lookupSession, hf, h]
  have hsfinal :
      (processMessageStream tools provider sessions sessionId freshId content
        now).1.sessions = createSession sessions freshId now := by
    simp only [processMessageStream, h]
    rw [addMessage_notin _ _ _ _ hs0]
    split
    · exact loopGo_sessions_notin tools provider sessionId now maxRounds 0 _ hs0
    · exact loopGo_sessions_notin tools provider sessionId now maxRounds 0 _ hs0
  refine ⟨?_, ?_, ?_⟩
  · intro msg now2
    exact addMessage_notin _ _ _ _ h
  · rw [hsfinal]
    simp [getMessages, hs0]
  · intro sid hsid
    rw [hsfinal]
    simp [createSession, lookupSession, Ne.symm hsid]

/-- C10 witness. -/
theorem unknown_session_no_write_witness :
    (∀ (msg : Msg) (now2 : Nat), addMessage [] "s" msg now2 = []) ∧
    getMessages
      (processMessageStream [] (fun _ => { text := "hi", calls := [] })
        [] "s" "f" "go" 0).1.sessions "s" none = [] ∧
    (∀ sid, sid ≠ "f" →
      lookupSession
        (processMessageStream [] (fun _ => { text := "hi", calls := [] })
          [] "s" "f" "go" 0).1.sessions sid
        = lookupSession [] sid) :=
  unknown_session_no_write [] (fun _ => { text := "hi", calls := [] })
    [] "s" "f" "go" 0 rfl (by decide)

/-- The final-marker count of the chunks of one wire line matches the
field-level count. -/
theorem ollamaLineChunks_finalCount (l : Option OllamaLine) :
    (ollamaLineChunks l).countP (·.isComplete) = ollamaLineFinalCount l := by
  rcases l with _ | ⟨co, dn⟩
  · rfl
  · rcases co with _ | c
    · cases dn <;> rfl
    · by_cases hc : c = ""
      · subst hc
        cases dn <;> rfl
      · cases dn <;> simp [ollamaLineChunks, ollamaLineFinalCount, finalChunk, hc]

/-- Final-marker count of concatenated per-line chunks. -/
theorem ollama_flatten_finalCount (lines : List (Option OllamaLine)) :
    ((lines.map ollamaLineChunks).flatten).countP (·.isComplete) =
      (lines.map ollamaLineFinalCount).sum := by
  induction lines with
  | nil => rfl
  | cons l rest ih =>
    simp [List.countP_append, ih, ollamaLineChunks_finalCount]

/-- C6 counterexample: a single wire line that reports done (the normal
way an Ollama stream ends) yields two `isComplete` chunks, one from the
done line and one from the unconditional marker after the read loop, so
the final chunk is not unique and does not uniquely end the sequence. -/
theorem ollama_double_final_cx :
    (ollamaStreamChunks [some { content := none, done := true }]).countP (·.isComplete)
      = 2 ∧
    (ollamaStreamChunks [some { content := none, done := true }]) =
      [finalChunk, finalChunk] := by
  exact ⟨by decide, by decide⟩

/-- C6 amended. Every Ollama stream ends with a final marker and contains
at least one; the count of `isComplete` chunks is exactly one (from the
after-loop marker) plus the contributions of the done-reporting wire
lines, so it is exactly one precisely when no wire line reports done. -/
theorem ollama_final_markers (lines : List (Option OllamaLine)) :
    (ollamaStreamChunks lines).getLast? = some finalChunk ∧
    (ollamaStreamChunks lines).countP (·.isComplete) =
      1 + (lines.map ollamaLineFinalCount).sum ∧
    ((∀ l ∈ lines, lineDone l = false) →
      (ollamaStreamChunks lines).countP (·.isComplete) = 1) := by
  refine ⟨?_, ?_, ?_⟩
  · simp [ollamaStreamChunks, List.getLast?_concat]
  · simp only [ollamaStreamChunks, List.countP_append]
    rw [ollama_flatten_finalCount]
    simp [finalChunk, Nat.add_comm]
  · intro hdone
    have hz : (lines.map ollamaLineFinalCount).sum = 0 := by
      induction lines with
      | nil => rfl
      | cons l rest ih =>
        have h1 := hdone l (List.mem_cons_self l rest)
        have h2 : ollamaLineFinalCount l = 0 := by
          rcases l with _ | ⟨co, dn⟩
          · rfl
          · simp [lineDone] at h1
            simp [ollamaLineFinalCount, h1]
        simp [h2, ih (fun x hx => hdone x (List.mem_cons_of_mem l hx))]
    simp only [ollamaStreamChunks, List.countP_append]
    rw [ollama_flatten_finalCount, hz]
    simp [finalChunk]

/-- C6 amended witness. -/
theorem ollama_final_markers_witness :
    (ollamaStreamChunks [some { content := some "hi", done := false }]).getLast?
      = some finalChunk ∧
    (ollamaStreamChunks [some { content := some "hi", done := false }]).countP
      (·.isComplete) =
      1 + ([some { content := some "hi", done := false }].map ollamaLineFinalCount).sum ∧
    ((∀ l ∈ [some ({ content := some "hi", done := false } : OllamaLine)], lineDone l = false) →
      (ollamaStreamChunks [some { content := some "hi", done := false }]).countP
        (·.isComplete) = 1) :=
  ollama_final_markers [some { content := some "hi", done := false }]

/-- The retry loop performs at most its budget of attempts. -/
theorem retryGo_attempts_le (fn : Nat → Except ε α) (d : Nat) :
    ∀ (m i : Nat) (last : Option ε), (retryGo fn d m i last).attempts ≤ m := by
  intro m
  induction m with
  | zero => intro i last; simp [retryGo]
  | succ r ih =>
    intro i last
    simp only [retryGo]
    cases fn i
    · simpa using Nat.succ_le_succ (ih (i + 1) _)
    · simp

/-- C7. A failing chat thunk is retried up to the default bound of 3
attempts, sleeping `delayMs * attemptIndex` between attempts, and the
last error propagates after the final failure; `ollamaChat` is exactly
this retry, while `ollamaStream` performs no retry: a transport failure
propagates immediately. -/
theorem retry_policy (fn : Nat → Except String AIResponse) (d : Nat)
    (e0 e1 e2 : String)
    (h0 : fn 0 = .error e0) (h1 : fn 1 = .error e1) (h2 : fn 2 = .error e2) :
    (retry fn 3 d).result = .error (some e2) ∧
    (retry fn 3 d).delays = [d * 1, d * 2] ∧
    (retry fn 3 d).attempts = 3 ∧
    ollamaChat fn = retry fn 3 1000 ∧
    (∀ (g : Nat → Except String AIResponse) (m dm : Nat),
      (retry g m dm).attempts ≤ m) ∧
    (∀ err : String, ollamaStream (.error err) = .error err) := by
  refine ⟨?_, ?_, ?_, rfl, ?_, fun _ => rfl⟩
  · simp [retry, retryGo, h0, h1, h2]
  · simp [retry, retryGo, h0, h1, h2]
  · simp [retry, retryGo, h0, h1, h2]
  · intro g m dm
    exact retryGo_attempts_le g dm m 0 none

/-- C7 witness. -/
theorem retry_policy_witness :
    (retry (fun _ => (.error "boom" : Except String AIResponse)) 3 5).result
      = .error (some "boom") ∧
    (retry (fun _ => (.error "boom" : Except String AIResponse)) 3 5).delays
      = [5 * 1, 5 * 2] ∧
    (retry (fun _ => (.error "boom" : Except String AIResponse)) 3 5).attempts = 3 ∧
    ollamaChat (fun _ => (.error "boom" : Except String AIResponse))
      = retry (fun _ => (.error "boom" : Except String AIResponse)) 3 1000 ∧
    (∀ (g : Nat → Except String AIResponse) (m dm : Nat),
      (retry g m dm).attempts ≤ m) ∧
    (∀ err : String, ollamaStream (.error err) = .error err) :=
  retry_policy (fun _ => (.error "boom" : Except String AIResponse)) 5
    "boom" "boom" "boom" rfl rfl rfl

/-- C1 counterexample: a MiniMax stream whose structural tool call
accumulates non-empty argument text that fails JSON parsing surfaces no
ToolCall at all — the call is dropped in the catch branch rather than
coerced to an empty argument mapping — while the stream still completes
without error. -/
theorem malformed_args_dropped_cx :
    jsonParse "\x7bbad" = none ∧
    mmToolCalls [.toolUseStart "id1" "screenshot", .inputJsonDelta "\x7bbad",
      .messageStop] = [] ∧
    (mmStream [.toolUseStart "id1" "screenshot", .inputJsonDelta "\x7bbad",
      .messageStop]).getLast? = some finalChunk := by
  exact ⟨by decide, by decide, by decide⟩

/-- C1 amended. Only empty accumulated argument text is coerced (via the
`|| '\x7b\x7d'` fallback) to an empty argument mapping; non-empty text
that fails JSON parsing makes the MiniMax stream adapter drop the
structural call silently, and makes the delta-accumulation finaliser
(DeepSeek, and the Claude adapter of the same shape) propagate the parse
error; every ToolCall actually surfaced carries parsed arguments. -/
theorem malformed_args_policy (id name args : String)
    (hne : args ≠ "") (hp : jsonParse args = none) :
    mmFinalizeStructural (some { id := id, name := name, arguments := args }) = [] ∧
    dsFinish (some { id := id, name := name, arguments := args })
      = .error "SyntaxError" ∧
    mmFinalizeStructural (some { id := id, name := name, arguments := "" }) =
      [{ toolCall := some { id := id, name := name, arguments := Json.obj [] },
         isComplete := false }] ∧
    dsFinish (some { id := id, name := name, arguments := "" }) =
      .ok [{ toolCall := some { id := id, name := name, arguments := Json.obj [] },
             isComplete := true }] := by
  refine ⟨?_, ?_, rfl, rfl⟩
  · simp [mmFinalizeStructural, hne, hp]
  · simp [dsFinish, hne, hp]

/-- C1 amended witness. -/
theorem malformed_args_policy_witness :
    mmFinalizeStructural (some { id := "id1", name := "shot", arguments := "\x7bbad" })
      = [] ∧
    dsFinish (some { id := "id1", name := "shot", arguments := "\x7bbad" })
      = .error "SyntaxError" ∧
    mmFinalizeStructural (some { id := "id1", name := "shot", arguments := "" }) =
      [{ toolCall := some { id := "id1", name := "shot", arguments := Json.obj [] },
         isComplete := false }] ∧
    dsFinish (some { id := "id1", name := "shot", arguments := "" }) =
      .ok [{ toolCall := some { id := "id1", name := "shot", arguments := Json.obj [] },
             isComplete := true }] :=
  malformed_args_policy "id1" "shot" "\x7bbad" (by decide) (by decide)

/-- C4 counterexample: a turn carrying one structurally typed tool-use
block and one inline XML invocation that encode the identical (name,
arguments) surfaces two ToolCalls, not one — the adapter performs no
de-duplication. -/
theorem hybrid_no_dedup_cx :
    (mmToolCalls [.textDelta "<minimax:tool_call><invoke name=\x22a\x22><parameters><x>1</x></parameters></invoke></minimax:tool_call>",
      .toolUseStart "id1" "a", .inputJsonDelta "\x7b\x22x\x22:\x221\x22\x7d",
      .messageStop]).map (fun c => (c.name, c.arguments))
      = [("a", Json.obj [("x", Json.str "1")]), ("a", Json.obj [("x", Json.str "1")])] := by
  decide

/-- C4 amended. A turn whose accumulated text contains exactly one inline
XML invocation and which carries one structurally typed tool-use block
surfaces exactly two ToolCalls — the inline call first, then the
structural call — whether or not the two encode the same (name,
arguments); no de-duplication is applied. -/
theorem hybrid_two_calls (id n1 n2 a t : String) (p j : Json)
    (ht : extractInline t = [(n2, p)])
    (ha : jsonParse a = some j)
    (htne : t ≠ "") (hane : a ≠ "") :
    (mmToolCalls [.textDelta t, .toolUseStart id n1, .inputJsonDelta a,
      .messageStop]).map (fun c => (c.name, c.arguments)) = [(n2, p), (n1, j)] := by
  have he : ("" : String) ++ t = t := rfl
  have hea : ("" : String) ++ a = a := rfl
  simp [mmToolCalls, mmStream, MMState.init, mmRun, mmStep, mmStopChunks,
    inlineCallChunks, mmFinalizeStructural, htne, hane, he, hea, ht, ha,
    contentChunk, finalChunk]

/-- C4 amended witness. -/
theorem hybrid_two_calls_witness :
    (mmToolCalls [.textDelta "<minimax:tool_call><invoke name=\x22b\x22><parameters><y>2</y></parameters></invoke></minimax:tool_call>",
      .toolUseStart "id1" "a", .inputJsonDelta "\x7b\x22x\x22:\x221\x22\x7d",
      .messageStop]).map (fun c => (c.name, c.arguments))
      = [("b", Json.obj [("y", Json.str "2")]), ("a", Json.obj [("x", Json.str "1")])] :=
  hybrid_two_calls "id1" "a" "b" "\x7b\x22x\x22:\x221\x22\x7d"
    "<minimax:tool_call><invoke name=\x22b\x22><parameters><y>2</y></parameters></invoke></minimax:tool_call>"
    (Json.obj [("y", Json.str "2")]) (Json.obj [("x", Json.str "1")])
    (by decide) (by decide) (by decide) (by decide)

/-- Chunks without text contribute nothing to a sentinel count. -/
theorem countP_content_none (x : String) (cs : List AIStreamChunk)
    (h : ∀ c ∈ cs, c.content = none) :
    cs.countP (fun c => c.content == some x) = 0 := by
  rw [List.countP_eq_zero]
  intro c hc
  simp [h c hc]

/-- Inline-call chunks carry no text. -/
theorem inline_content_none (s : String) :
    ∀ c ∈ inlineCallChunks s, c.content = none := by
  intro c hc
  simp only [inlineCallChunks, List.mem_map] at hc
  obtain ⟨nc, _, rfl⟩ := hc
  rfl

/-- The structural-call chunk carries no text. -/
theorem finalize_content_none (cur : Option MMAcc) :
    ∀ c ∈ mmFinalizeStructural cur, c.content = none := by
  intro c hc
  rcases cur with _ | acc
  · simp [mmFinalizeStructural] at hc
  · simp only [mmFinalizeStructural] at hc
    rcases hj : jsonParse (if acc.arguments = "" then "\x7b\x7d" else acc.arguments) with _ | j
    · rw [hj] at hc
      simp at hc
    · rw [hj] at hc
      simp at hc
      rw [hc]

/-- Sentinel counts of the message-stop chunks: exactly one close when a
thinking block is still open, and never an open. -/
theorem mmStopChunks_counts (st : MMState) :
    sentinelCloses (mmStopChunks st) = thinkFlag st ∧
    sentinelOpens (mmStopChunks st) = 0 := by
  have hin := countP_content_none mmThinkOpen _ (inline_content_none st.fullTextContent)
  have hic := countP_content_none mmThinkClose _ (inline_content_none st.fullTextContent)
  have hfn := countP_content_none mmThinkOpen _ (finalize_content_none st.currentToolCall)
  have hfc := countP_content_none mmThinkClose _ (finalize_content_none st.currentToolCall)
  by_cases hf : st.hasYieldThinking
  · constructor <;>
      simp [mmStopChunks, sentinelOpens, sentinelCloses, thinkFlag, hf,
        List.countP_append, hin, hic, hfn, hfc, contentChunk, finalChunk,
        List.countP_cons, (by decide : ¬(mmThinkClose = mmThinkOpen))]
  · constructor <;>
      simp [mmStopChunks, sentinelOpens, sentinelCloses, thinkFlag, hf,
        List.countP_append, hin, hic, hfn, hfc, finalChunk]

/-- One benign event neither stops the stream nor disturbs the balance
between emitted close sentinels plus the open-flag and emitted open
sentinels. -/
theorem mmStep_balance (st : MMState) (e : MMEvent) (hb : benignEvent e = true) :
    (mmStep st e).2.2 = false ∧
    sentinelCloses (mmStep st e).1 + thinkFlag (mmStep st e).2.1 =
      sentinelOpens (mmStep st e).1 + thinkFlag st := by
  have hoc : ¬(mmThinkOpen = mmThinkClose) := by decide
  have hco : ¬(mmThinkClose = mmThinkOpen) := by decide
  cases e with
  | thinkingDelta s =>
    simp only [benignEvent, Bool.and_eq_true, Bool.not_eq_eq_eq_not, Bool.not_true,
      beq_eq_false_iff_ne, ne_eq] at hb
    obtain ⟨h1, h2⟩ := hb
    by_cases hs : s = ""
    · simp [mmStep, hs, sentinelOpens, sentinelCloses]
    · by_cases hf : st.hasYieldThinking <;>
        simp [mmStep, hs, hf, sentinelOpens, sentinelCloses, thinkFlag, contentChunk,
          List.countP_cons, h1, h2, hoc]
  | textDelta s =>
    simp only [benignEvent, Bool.and_eq_true, Bool.not_eq_eq_eq_not, Bool.not_true,
      beq_eq_false_iff_ne, ne_eq] at hb
    obtain ⟨h1, h2⟩ := hb
    by_cases hs : s = ""
    · simp [mmStep, hs, sentinelOpens, sentinelCloses]
    · by_cases hf : st.hasYieldThinking <;>
        simp [mmStep, hs, hf, sentinelOpens, sentinelCloses, thinkFlag, contentChunk,
          List.countP_cons, h1, h2, hco]
  | toolUseStart id name =>
    simp [mmStep, sentinelOpens, sentinelCloses, thinkFlag]
  | inputJsonDelta s =>
    by_cases hs : s = ""
    · simp [mmStep, hs, sentinelOpens, sentinelCloses]
    · rcases hc : st.currentToolCall with _ | acc <;>
        simp [mmStep, hs, hc, sentinelOpens, sentinelCloses, thinkFlag]
  | messageStop => exact absurd hb (by decide)
  | doneMarker => exact absurd hb (by decide)
  | unparseable => simp [mmStep, sentinelOpens, sentinelCloses]

/-- Over any benign prefix closed by a message stop, emitted close
sentinels exceed emitted opens by exactly the initially open flag. -/
theorem mmRun_balance (es : List MMEvent) :
    ∀ st : MMState, (∀ e ∈ es, benignEvent e = true) →
      sentinelCloses (mmRun (es ++ [.messageStop]) st) =
        sentinelOpens (mmRun (es ++ [.messageStop]) st) + thinkFlag st := by
  induction es with
  | nil =>
    intro st _
    have hm := mmStopChunks_counts st
    simp only [List.nil_append, mmRun, mmStep]
    simp [hm.1, hm.2]
  | cons e rest ih =>
    intro st hb
    have hbe := hb e (List.mem_cons_self e rest)
    have hstep := mmStep_balance st e hbe
    rcases hsp : mmStep st e with ⟨cs, st1, stop⟩
    rw [hsp] at hstep
    simp only at hstep
    obtain ⟨hstop, hbal⟩ := hstep
    subst hstop
    have hr := ih st1 (fun x hx => hb x (List.mem_cons_of_mem e hx))
    simp only [List.cons_append, mmRun, hsp, if_neg Bool.false_ne_true]
    simp only [sentinelOpens, sentinelCloses, List.countP_append, List.append_eq] at hr hbal ⊢
    omega

/-- C5 counterexample: a stream that opens a thinking block and is then
terminated by a `[DONE]` line emits an open sentinel but never the close
sentinel, so the concatenated emitted text has unbalanced sentinel
counts; the same unguarded path runs on abrupt byte-stream end. -/
theorem sentinel_imbalance_done_cx :
    countSub mmThinkOpen (emittedText (mmStream [.thinkingDelta "x", .doneMarker])) = 1 ∧
    countSub mmThinkClose (emittedText (mmStream [.thinkingDelta "x", .doneMarker])) = 0 ∧
    emittedText (mmStream [.thinkingDelta "x", .doneMarker]) = mmThinkOpen ++ "x" := by
  exact ⟨by decide, by decide, by decide⟩

/-- C5 amended. For a stream of thinking/text interleavings terminated by
a `message_stop` event (payloads not literally equal to a sentinel), the
adapter emits equally many open- and close-sentinel chunks; and whenever
ordinary text begins while a thinking block is open, the close sentinel
chunk is emitted immediately before the text chunk. Under `[DONE]` or
abrupt termination the close sentinel of an open block is not emitted. -/
theorem sentinel_balance (es : List MMEvent) (s : String) (st : MMState)
    (hb : ∀ e ∈ es, benignEvent e = true)
    (hs : s ≠ "") (hf : st.hasYieldThinking = true) :
    sentinelOpens (mmStream (es ++ [.messageStop])) =
      sentinelCloses (mmStream (es ++ [.messageStop])) ∧
    (mmStep st (.textDelta s)).1 = [contentChunk mmThinkClose, contentChunk s] := by
  constructor
  · have h := mmRun_balance es MMState.init hb
    simp only [mmStream, thinkFlag, MMState.init] at h ⊢
    simp at h
    omega
  · simp [mmStep, hs, hf]

/-- C5 amended witness. -/
theorem sentinel_balance_witness :
    sentinelOpens (mmStream ([.thinkingDelta "x", .textDelta "y"] ++ [.messageStop])) =
      sentinelCloses (mmStream ([.thinkingDelta "x", .textDelta "y"] ++ [.messageStop])) ∧
    (mmStep { hasYieldThinking := true, currentToolCall := none, fullTextContent := "" }
      (.textDelta "y")).1 = [contentChunk mmThinkClose, contentChunk "y"] :=
  sentinel_balance [.thinkingDelta "x", .textDelta "y"] "y"
    { hasYieldThinking := true, currentToolCall := none, fullTextContent := "" }
    (by decide) (by decide) rfl

end AIRC
